import Mathlib

/-!
Verification of the specification of the hazelcast-client-protocol code
generator core (`util.py`) against a shallow Lean embedding of that code.

Conventions of the embedding:
* Python dicts describing services/methods/parameters become Lean structures.
* A "since" version tag (a dotted string such as "2.1" in the YAML corpus) is
  represented by the list of its integer components; `get_version_as_number`
  embeds the conversion `version_to_number(*map(int, version.split(".")))`.
* Python `print` diagnostics become values of the inductive type `Diag`
  collected in a list, in emission order.
* External collaborators that live outside the repository (the jsonschema
  structural validator, the jinja2 renderer, the hashlib content hash) enter
  as function parameters, exactly at their interface as the spec declares.
* The possibly non-terminating recursive classifier of `util.py` is embedded
  with an explicit fuel argument; `none` means the recursion did not finish
  within the given fuel.  The Python mutable memo sets become an explicit
  `Memo` state threaded through the computation (Python uses `set`s; lists
  with the same membership are used here, which can hold duplicates but agree
  on every membership test the code performs).
-/

/-! ## Version registry (`util.py` lines 54-56, 95-106) -/

def MAJOR_VERSION_MULTIPLIER : Int := 10000

def MINOR_VERSION_MULTIPLIER : Int := 100

def PATCH_VERSION_MULTIPLIER : Int := 1

/-- `version_to_number(major, minor, patch=0)` from `util.py` lines 95-100. -/
def version_to_number (major minor patch : Int) : Int :=
  MAJOR_VERSION_MULTIPLIER * major + MINOR_VERSION_MULTIPLIER * minor
    + PATCH_VERSION_MULTIPLIER * patch

/-- `get_version_as_number(version)` from `util.py` lines 103-106: the dotted
version string is split on "." and the integer components are passed to
`version_to_number` (two components use the Python default `patch=0`).  The
Python code raises on any other arity; the corpus only holds 2- or
3-component versions, and no claim exercises another arity. -/
def get_version_as_number (version : List Int) : Int :=
  match version with
  | [major, minor] => version_to_number major minor 0
  | [major, minor, patch] => version_to_number major minor patch
  | _ => 0

/-! ## Data model (section 3 of the spec; the YAML dictionaries of the corpus) -/

structure Param where
  name : String
  type : String
  since : List Int
deriving Repr, DecidableEq

structure Event where
  name : String
  since : List Int
  params : List Param
deriving Repr, DecidableEq

structure Method where
  name : String
  id : Nat
  since : List Int
  request : List Param
  response : List Param
  events : Option (List Event)
deriving Repr, DecidableEq

structure Service where
  name : String
  id : Nat
  methods : List Method
deriving Repr, DecidableEq

structure CustomType where
  name : String
  since : List Int
  params : List Param
deriving Repr, DecidableEq

structure CustomService where
  customTypes : List CustomType
deriving Repr, DecidableEq

/-- `ID_VALIDATOR_IGNORE_SET` from `util.py` line 58. -/
def ID_VALIDATOR_IGNORE_SET : List String := ["Jet", "Experimental"]

/-! ## Semantic version-continuity check (`util.py` lines 420-434) -/

/-- `is_semantically_correct_param(version, protocol_versions)` from `util.py`
lines 420-434.  `version` is an encoded version number; `protocol_versions`
is the indexable collection of known encoded versions whose first element is
the base protocol version (the code comment calls it 2.0).  Python indexes
`protocol_versions[0]`, which raises on an empty collection; `headI` is used
here and the theorems carry a nonemptiness hypothesis.  Note that the Python
`elif version % PATCH_VERSION_MULTIPLIER == 0` test is `version % 1 == 0`,
which always holds; it is kept verbatim. -/
def is_semantically_correct_param (version : Int) (protocol_versions : List Int) : Bool :=
  if version ≠ protocol_versions.headI then
    if version % MINOR_VERSION_MULTIPLIER = 0 then
      decide ((version - MINOR_VERSION_MULTIPLIER) ∈ protocol_versions)
    else if version % PATCH_VERSION_MULTIPLIER = 0 then
      decide ((version - PATCH_VERSION_MULTIPLIER) ∈ protocol_versions)
    else
      true
  else
    true

/-! ## Diagnostics

Each constructor stands for one of the `print` statements of the validator,
carrying the names interpolated into the printed message. -/

inductive Diag where
  | schema (service : String)
  | serviceId (service : String)
  | methodId (service : String) (method : String)
  | semanticSince (owner : String)
  | paramSemanticSince (param : String) (owner : String)
  | paramOrdering (param : String) (owner : String)
deriving Repr, DecidableEq

/-! ## Character-list implementations of the Python string primitives

Lean core's `String.splitOn`, `String.replace`, `String.startsWith` and
friends are compiled functions whose position-based loops do not reduce
inside the kernel, so the Python string methods that `util.py` relies on are
embedded as structural recursion over the character list of the string.
`pySplit` is Python's `str.split(sep)` for a non-empty separator (leftmost,
non-overlapping occurrences), `pyReplace` is `str.replace(old, new)` via the
split-and-join identity `new.join(s.split(old))`, `pyStartsWith`,
`pyEndsWith` and `pyDropRightWhile` are `str.startswith`, `str.endswith`
and the trailing-character strip. -/

/-- Split a character list at each occurrence of `sep`, scanning left to
right; `fuel` bounds the scan by the input length, keeping the recursion
structural. -/
def splitChars (sep : List Char) : Nat → List Char → List Char → List (List Char)
  | 0, rest, acc => [acc.reverse ++ rest]
  | fuel + 1, s, acc =>
    match s with
    | [] => [acc.reverse]
    | c :: cs =>
      if sep.isPrefixOf (c :: cs) then
        acc.reverse :: splitChars sep fuel (List.drop sep.length (c :: cs)) []
      else
        splitChars sep fuel cs (c :: acc)

def pySplit (s sep : String) : List String :=
  (splitChars sep.data s.data.length s.data []).map String.mk

def pyIntercalate (sep : String) (xs : List String) : String :=
  String.mk (List.intercalate sep.data (xs.map String.data))

def pyReplace (s pattern repl : String) : String :=
  pyIntercalate repl (pySplit s pattern)

def pyStartsWith (s p : String) : Bool := p.data.isPrefixOf s.data

def pyEndsWith (s p : String) : Bool := p.data.isSuffixOf s.data

def pyDropRightWhile (s : String) (p : Char → Bool) : String :=
  String.mk ((s.data.reverse.dropWhile p).reverse)

/-- `name[: name.rindex("#")]` from `util.py` line 443: the owner name with
its last `#`-separated component removed. -/
def stripAfterLastHash (name : String) : String :=
  pyIntercalate "#" ((pySplit name "#").dropLast)

/-! ## Parameter-list validation (`util.py` lines 437-471) -/

/-- The `for param in params` loop of
`is_parameters_ordered_and_semantically_correct` (`util.py` lines 451-470),
threading the running `version` accumulator.  Returns
(is_ordered, is_semantically_correct, diagnostics). -/
def is_parameters_ordered_loop (pvs : List Int) (name : String) :
    Int → List Param → Bool × Bool × List Diag
  | _, [] => (true, true, [])
  | version, p :: ps =>
    let paramVersion := get_version_as_number p.since
    let semOk := is_semantically_correct_param paramVersion pvs
    let ordOk := decide (version ≤ paramVersion)
    let rest := is_parameters_ordered_loop pvs name paramVersion ps
    (ordOk && rest.1, semOk && rest.2.1,
      (if semOk then [] else [Diag.paramSemanticSince p.name name])
        ++ (if ordOk then [] else [Diag.paramOrdering p.name name])
        ++ rest.2.2)

/-- `is_parameters_ordered_and_semantically_correct(since, name, params,
protocol_versions)` from `util.py` lines 437-471, returning the aggregate
boolean together with the diagnostics printed, in print order. -/
def is_parameters_ordered_and_semantically_correct
    (since : List Int) (name : String) (params : List Param) (pvs : List Int) :
    Bool × List Diag :=
  let version := get_version_as_number since
  let headOk := is_semantically_correct_param version pvs
  let r := is_parameters_ordered_loop pvs name version params
  (r.1 && (headOk && r.2.1),
    (if headOk then [] else [Diag.semanticSince (stripAfterLastHash name)]) ++ r.2.2)

/-! ## Corpus validator (`util.py` lines 364-417)

The structural schema check `validate_against_schema` (lines 490-496) calls
the external `jsonschema` library; it enters the embedding as the function
parameter `schemaOk`, exactly at its interface (service in, pass/fail out,
with a `Diag.schema` line carrying the service name on failure). -/

/-- The per-method portion of the semantic block (`util.py` lines 384-416):
method-id continuity at position `j`, then the request, response and event
parameter-list checks. -/
def validate_method (svcName : String) (j : Nat) (m : Method) (pvs : List Int) :
    Bool × List Diag :=
  let idOk := decide ((j + 1) = m.id)
  let mname := svcName ++ "#" ++ m.name
  let req := is_parameters_ordered_and_semantically_correct m.since
    (mname ++ "#request") m.request pvs
  let res := is_parameters_ordered_and_semantically_correct m.since
    (mname ++ "#response") m.response pvs
  let evs := (m.events.getD []).map fun e =>
    is_parameters_ordered_and_semantically_correct e.since
      (mname ++ "#" ++ e.name ++ "#event") e.params pvs
  (idOk && req.1 && res.1 && (evs.all fun r => r.1),
    (if idOk then [] else [Diag.methodId svcName m.name])
      ++ req.2 ++ res.2 ++ (evs.map fun r => r.2).flatten)

/-- The whole semantic block for the service at list position `i`
(`util.py` lines 374-416): service-id continuity plus every per-method
check. -/
def validate_service_semantics (i : Nat) (svc : Service) (pvs : List Int) :
    Bool × List Diag :=
  let idOk := decide (i = svc.id)
  let ms := svc.methods.enum.map fun jm => validate_method svc.name jm.1 jm.2 pvs
  (idOk && (ms.all fun r => r.1),
    (if idOk then [] else [Diag.serviceId svc.name]) ++ (ms.map fun r => r.2).flatten)

/-- The guard `if not no_id_check and service["name"] not in
ID_VALIDATOR_IGNORE_SET` from `util.py` line 373: the semantic block runs
only when the id check applies to this service. -/
def validate_service_checked (no_id_check : Bool) (i : Nat) (svc : Service)
    (pvs : List Int) : Bool × List Diag :=
  if no_id_check = false ∧ svc.name ∉ ID_VALIDATOR_IGNORE_SET then
    validate_service_semantics i svc pvs
  else
    (true, [])

/-- The `for i in range(len(services))` loop of `validate_services`
(`util.py` lines 368-416), threading the position `i` and the `valid`
accumulator.  A structural schema failure executes Python's
`return False` (line 371), abandoning the loop. -/
def validate_services_aux (schemaOk : Service → Bool) (no_id_check : Bool)
    (pvs : List Int) : Nat → Bool → List Service → Bool × List Diag
  | _, valid, [] => (valid, [])
  | i, valid, svc :: rest =>
    if schemaOk svc then
      let c := validate_service_checked no_id_check i svc pvs
      let r := validate_services_aux schemaOk no_id_check pvs (i + 1) (valid && c.1) rest
      (r.1, c.2 ++ r.2)
    else
      (false, [Diag.schema svc.name])

/-- `validate_services(services, schema_path, no_id_check, protocol_versions)`
from `util.py` lines 364-417, with the external structural validator
abstracted as `schemaOk`. -/
def validate_services (schemaOk : Service → Bool) (services : List Service)
    (no_id_check : Bool) (pvs : List Int) : Bool × List Diag :=
  validate_services_aux schemaOk no_id_check pvs 0 true services

/-- Recognizer of the ordering diagnostic ("Parameters should be in the
increasing order of since values!", `util.py` lines 463-467). -/
def isOrderingDiag : Diag → Bool
  | Diag.paramOrdering _ _ => true
  | _ => false

/-! ## Message ID assignment (`util.py` lines 206, 228-235) -/

/-- Number of digits of `n` rendered in base-16 by Python's `"%x"`
(one digit for 0); the fuel argument of the auxiliary keeps the division
recursion structural, and `n` itself is always enough fuel. -/
def hexDigitCountAux : Nat → Nat → Nat
  | 0, _ => 1
  | fuel + 1, n => if n < 16 then 1 else hexDigitCountAux fuel (n / 16) + 1

def hexDigitCount (n : Nat) : Nat := hexDigitCountAux n n

/-- Width of one `%02x` chunk: at least two hex digits. -/
def hexLen (n : Nat) : Nat := max 2 (hexDigitCount n)

/-- The integer value of the Python expression
`int(id_fmt % (service_id, method_id, kind), 16)` with
`id_fmt = "0x%02x%02x%02x"` (`util.py` lines 206, 228-235): each `%02x`
chunk renders its argument in hex padded to at least two digits, the chunks
are concatenated after "0x", and the string is parsed back in base 16, so
the value is the left chunks shifted past the widths of the right chunks. -/
def assignedMessageId (serviceId methodId kind : Nat) : Nat :=
  serviceId * 16 ^ (hexLen methodId + hexLen kind) + methodId * 16 ^ hexLen kind + kind

structure AssignedIds where
  requestId : Nat
  responseId : Nat
  eventIds : List Nat
deriving Repr, DecidableEq

/-- The id-enrichment step of `generate_codecs` (`util.py` lines 228-235):
request id with kind 0, response id with kind 1, and — when the method has
an `events` list — the event at position `i` with kind `i + 2`. -/
def assignMessageIds (serviceId methodId : Nat) (events : Option (List Event)) :
    AssignedIds :=
  { requestId := assignedMessageId serviceId methodId 0
    responseId := assignedMessageId serviceId methodId 1
    eventIds :=
      match events with
      | none => []
      | some evs => (List.range evs.length).map fun i =>
          assignedMessageId serviceId methodId (i + 2) }

/-! ## Emission loop (`util.py` lines 240-265 and 282-305)

The jinja2 renderer is external: it enters as a function returning either
rendered text, the `NotImplementedError` "unsupported type mapping" signal
that `generate_codecs` / `generate_custom_codecs` catch per artifact, or any
other failure, which the `except NotImplementedError` clause does not
catch. -/

inductive RenderOutcome where
  | ok (content : String)
  | notImplementedError (msg : String)
  | failure (msg : String)
deriving Repr, DecidableEq

def RenderOutcome.isFailure : RenderOutcome → Bool
  | RenderOutcome.failure _ => true
  | _ => false

/-- Observable outcome of one emission batch: the files saved in order, the
skip diagnostics printed (each naming the skipped artifact's file name, as in
"[%s] contains missing type mapping so ignoring it"), and — when an uncaught
failure escaped the loop — the propagated failure. -/
structure EmitOutcome where
  written : List (String × String)
  skipped : List String
  aborted : Option String
deriving Repr, DecidableEq

/-- The per-artifact loop shared by `generate_codecs` (lines 240-265, one
iteration per non-ignored method) and `generate_custom_codecs` (lines
282-305, one iteration per custom type): render the artifact inside `try`,
save it on success, print a skip line and continue on
`NotImplementedError`, and let any other failure escape the loop. -/
def generate_codecs_batch {α : Type} (render : α → RenderOutcome)
    (fileName : α → String) : List α → EmitOutcome
  | [] => ⟨[], [], none⟩
  | a :: rest =>
    match render a with
    | RenderOutcome.ok content =>
      let r := generate_codecs_batch render fileName rest
      ⟨(fileName a, content) :: r.written, r.skipped, r.aborted⟩
    | RenderOutcome.notImplementedError _ =>
      let r := generate_codecs_batch render fileName rest
      ⟨r.written, fileName a :: r.skipped, r.aborted⟩
    | RenderOutcome.failure e => ⟨[], [], some e⟩

/-! ## Artifact writer (`util.py` lines 499-512)

`hashlib.md5` is external; the writer is parametric in the content-hash
function `hash`.  `save_file` here returns the text written to disk. -/

/-- One line with trailing spaces and tabs removed: the effect of
`re.sub("[ \t]+$", "", content, 0, re.M)` on that line. -/
def stripTrailingWsLine (line : String) : String :=
  pyDropRightWhile line fun c => c == ' ' || c == '\t'

/-- The `.cs` normalization of `save_file` (`util.py` lines 501-506):
CRLF and CR to LF, trailing blanks stripped on every line, all trailing
newlines trimmed, one final newline appended. -/
def normalize_cs (content : String) : String :=
  let c := pyReplace (pyReplace content "\r\n" "\n") "\r" "\n"
  let c := pyIntercalate "\n" ((pySplit c "\n").map stripTrailingWsLine)
  let c := pyDropRightWhile c fun ch => ch == '\n'
  c ++ "\n"

/-- The text whose UTF-8 bytes `save_file` feeds to the content hash
(`util.py` lines 501-509): the normalized content, still containing the
`!codec_hash!` placeholder token. -/
def normalized_content (file content : String) : String :=
  if pyEndsWith file ".cs" then normalize_cs content else content

/-- `save_file(file, content, mode)` from `util.py` lines 499-512, returning
the text written: the (possibly `.cs`-normalized) content is hashed, and the
hash replaces the reserved `!codec_hash!` placeholder in that same text. -/
def save_file (hash : String → String) (file : String) (content : String) : String :=
  let content := normalized_content file content
  let codec_hash := hash content
  pyReplace content "!codec_hash!" codec_hash

/-- A concrete stand-in content hash used in the witnesses: the length of the
hashed text between two markers. -/
def lenHash (s : String) : String := "H" ++ toString s.length ++ "H"

/-! ## Data-flow analyzer (`util.py` lines 137-198)

`generate_data_containing_requests_lookup_table` keeps two mutable memo sets
(`types_containing_serialized_data`, initially {"Data"}, and
`types_not_containing_serialized_data`, initially empty) shared by all
classifications of one run; they become the explicit `Memo` state.  The
recursion of `type_contains_serialized_data` /
`custom_type_contains_serialized_data` need not terminate (nothing is added
to either set before recursing), so the embedding carries a fuel argument:
`none` means the recursion did not complete within the fuel. -/

structure Memo where
  hits : List String
  misses : List String
deriving Repr, DecidableEq

/-- The initial memo state of one `generate_data_containing_requests_lookup_table`
run (`util.py` lines 140-144). -/
def initMemo : Memo := ⟨["Data"], []⟩

def addHit (t : String) (σ : Memo) : Memo := ⟨t :: σ.hits, σ.misses⟩

def addMiss (t : String) (σ : Memo) : Memo := ⟨σ.hits, t :: σ.misses⟩

/-- `type_name.startswith("List_") or type_name.startswith("ListCN_") or
type_name.startswith("Set_")` (`util.py` line 159). -/
def isListPrefixed (t : String) : Bool :=
  pyStartsWith t "List_" || pyStartsWith t "ListCN_" || pyStartsWith t "Set_"

/-- `type_name.startswith("Map_") or type_name.startswith("EntryList_")`
(`util.py` line 164). -/
def isMapPrefixed (t : String) : Bool :=
  pyStartsWith t "Map_" || pyStartsWith t "EntryList_"

/-- `type_name.split("_", 1)[1]`: everything after the first underscore. -/
def afterFirstSep (t : String) : String :=
  pyIntercalate "_" ((pySplit t "_").tail)

/-- `type_name.split("_", 2)[1]`: the second underscore-separated chunk. -/
def secondComp (t : String) : String :=
  ((pySplit t "_").drop 1).headI

/-- `type_name.split("_", 2)[2]`: everything after the second underscore.
(Python raises if the name has fewer than two underscores; no claim
exercises such a malformed map/entry-list name.) -/
def afterSecondSep (t : String) : String :=
  pyIntercalate "_" ((pySplit t "_").drop 2)

/-- The dict `custom_types = {custom["name"]: custom for custom in ...}`
(`util.py` lines 149-152): on duplicate names the later entry wins. -/
def findCustom (ct : List CustomType) (t : String) : Option CustomType :=
  ct.reverse.find? fun c => c.name == t

/-- The dispatch of the `elif` chain of `type_contains_serialized_data`
(`util.py` lines 159-173) once both memo sets have missed: list/set prefix,
then map/entry-list prefix, then declared custom type, else plain. -/
inductive Shape where
  | listLike (item : String)
  | mapLike (key value : String)
  | customLike (params : List Param)
  | plain
deriving Repr, DecidableEq

def classify (ct : List CustomType) (t : String) : Shape :=
  if isListPrefixed t then Shape.listLike (afterFirstSep t)
  else if isMapPrefixed t then Shape.mapLike (secondComp t) (afterSecondSep t)
  else
    match findCustom ct t with
    | some c => Shape.customLike c.params
    | none => Shape.plain

/-- The short-circuiting `for param ...: if type_contains_serialized_data(...):
return True` loop shape, used both by `custom_type_contains_serialized_data`
(`util.py` lines 177-184) over a custom type's parameters and by the
request-parameter loop of the table builder (lines 191-196), threading the
memo state left to right exactly as the Python mutation does. -/
def params_scan (f : String → Memo → Option (Bool × Memo)) :
    List Param → Memo → Option (Bool × Memo)
  | [], σ => some (false, σ)
  | p :: ps, σ =>
    match f p.type σ with
    | none => none
    | some (true, σ1) => some (true, σ1)
    | some (false, σ1) => params_scan f ps σ1

/-- `type_contains_serialized_data(type_name)` from `util.py` lines 154-175,
with the two memo sets as explicit state and a fuel bound on the recursion
depth.  On every `return True` path the name joins the hit set; on every
`return False` path it joins the miss set (line 174), except when the answer
came from a memo set itself. -/
def type_contains_serialized_data (ct : List CustomType) :
    Nat → String → Memo → Option (Bool × Memo)
  | 0, _, _ => none
  | fuel + 1, t, σ =>
    if t ∈ σ.hits then some (true, σ)
    else if t ∈ σ.misses then some (false, σ)
    else
      match classify ct t with
      | Shape.listLike item =>
        match type_contains_serialized_data ct fuel item σ with
        | none => none
        | some (true, σ1) => some (true, addHit t σ1)
        | some (false, σ1) => some (false, addMiss t σ1)
      | Shape.mapLike k v =>
        match type_contains_serialized_data ct fuel k σ with
        | none => none
        | some (true, σ1) => some (true, addHit t σ1)
        | some (false, σ1) =>
          match type_contains_serialized_data ct fuel v σ1 with
          | none => none
          | some (true, σ2) => some (true, addHit t σ2)
          | some (false, σ2) => some (false, addMiss t σ2)
      | Shape.customLike ps =>
        match params_scan (fun ty σ0 => type_contains_serialized_data ct fuel ty σ0) ps σ with
        | none => none
        | some (true, σ1) => some (true, addHit t σ1)
        | some (false, σ1) => some (false, addMiss t σ1)
      | Shape.plain => some (false, addMiss t σ)

/-- `custom_services[0]["customTypes"]` guarded by `if not custom_services`
(`util.py` lines 146-152). -/
def custom_types_of (custom_services : List CustomService) : List CustomType :=
  match custom_services with
  | [] => []
  | cs :: _ => cs.customTypes

/-- The `for method in service["methods"]` loop of the table builder
(`util.py` lines 189-196): one (method name, flag) entry per method, the
flag set by the for/else over the request parameters. -/
def methods_lookup_loop (ct : List CustomType) (fuel : Nat) :
    List Method → Memo → Option (List (String × Bool) × Memo)
  | [], σ => some ([], σ)
  | m :: ms, σ =>
    match params_scan (fun ty σ0 => type_contains_serialized_data ct fuel ty σ0)
        m.request σ with
    | none => none
    | some (b, σ1) =>
      match methods_lookup_loop ct fuel ms σ1 with
      | none => none
      | some (es, σ2) => some ((m.name, b) :: es, σ2)

/-- The `for service in services` loop of the table builder (`util.py`
lines 186-196). -/
def services_lookup_loop (ct : List CustomType) (fuel : Nat) :
    List Service → Memo → Option (List (String × List (String × Bool)) × Memo)
  | [], σ => some ([], σ)
  | s :: ss, σ =>
    match methods_lookup_loop ct fuel s.methods σ with
    | none => none
    | some (es, σ1) =>
      match services_lookup_loop ct fuel ss σ1 with
      | none => none
      | some (tbl, σ2) => some ((s.name, es) :: tbl, σ2)

/-- `generate_data_containing_requests_lookup_table(services, custom_services)`
from `util.py` lines 137-198 (the Python `defaultdict` table becomes an
association list in iteration order). -/
def generate_data_containing_requests_lookup_table (services : List Service)
    (custom_services : List CustomService) (fuel : Nat) :
    Option (List (String × List (String × Bool))) :=
  match services_lookup_loop (custom_types_of custom_services) fuel services initMemo with
  | none => none
  | some (tbl, _) => some tbl

/-- The classification rule of the data-flow analyzer, as the least relation
closed under the five cases of the spec: the payload type "Data" is a hit; a
list/set-prefixed name is a hit if its item type is; a map/entry-list name is
a hit if its key or its value type is; a name declared as a custom type is a
hit if one of that custom type's parameter types is.  `classify` carries the
source's dispatch, so the cases are mutually exclusive by construction. -/
inductive IsHit (ct : List CustomType) : String → Prop where
  | data : IsHit ct "Data"
  | list {t item : String} :
      classify ct t = Shape.listLike item → IsHit ct item → IsHit ct t
  | mapKey {t k v : String} :
      classify ct t = Shape.mapLike k v → IsHit ct k → IsHit ct t
  | mapVal {t k v : String} :
      classify ct t = Shape.mapLike k v → IsHit ct v → IsHit ct t
  | custom {t : String} {ps : List Param} {p : Param} :
      t ≠ "Data" → classify ct t = Shape.customLike ps → p ∈ ps →
      IsHit ct p.type → IsHit ct t

/-- A memo state is sound when the hit set contains the payload type and
both sets tell the truth about `IsHit`.  The initial state is sound, and
(proved below) every state the classifier produces from a sound state is
sound again. -/
def Sound (ct : List CustomType) (σ : Memo) : Prop :=
  "Data" ∈ σ.hits ∧ (∀ t ∈ σ.hits, IsHit ct t) ∧ (∀ t ∈ σ.misses, ¬ IsHit ct t)

/-! ## Claim theorems -/

/-- Claim C8: `version_to_number` is strictly monotone in lexicographic
(major, minor, patch) order as long as minor and patch stay below 100 (and
are non-negative, as every corpus version component is); in particular
encode(2,0,0) < encode(2,1,0) < encode(2,1,5) < encode(3,0,0). -/
theorem C8_version_encoding_monotonic :
    (∀ a b c a2 b2 c2 : Int, 0 ≤ b → b < 100 → 0 ≤ c → c < 100 →
      0 ≤ b2 → b2 < 100 → 0 ≤ c2 → c2 < 100 →
      (a < a2 ∨ (a = a2 ∧ b < b2) ∨ (a = a2 ∧ b = b2 ∧ c < c2)) →
      version_to_number a b c < version_to_number a2 b2 c2)
    ∧ (version_to_number 2 0 0 < version_to_number 2 1 0
        ∧ version_to_number 2 1 0 < version_to_number 2 1 5
        ∧ version_to_number 2 1 5 < version_to_number 3 0 0) := by
  constructor
  · intro a b c a2 b2 c2 hb hb' hc hc' hb2 hb2' hc2 hc2' hlex
    simp only [version_to_number, MAJOR_VERSION_MULTIPLIER, MINOR_VERSION_MULTIPLIER,
      PATCH_VERSION_MULTIPLIER] at *
    rcases hlex with h | ⟨h1, h2⟩ | ⟨h1, h2, h3⟩ <;> omega
  · refine ⟨?_, ?_, ?_⟩ <;> decide

/-- Witness for C8 at the concrete triples (2,0,0) and (2,1,0). -/
theorem C8_version_encoding_monotonic_witness :
    version_to_number 2 0 0 < version_to_number 2 1 0 :=
  C8_version_encoding_monotonic.1 2 0 0 2 1 0 (by decide) (by decide) (by decide)
    (by decide) (by decide) (by decide) (by decide) (by decide)
    (Or.inr (Or.inl ⟨rfl, by decide⟩))

/-- Counterexample to claim C2: the claim says a major-version bump such as
"3.0" is accepted unconditionally, but with known versions {2.0, 2.1} the
code rejects 3.0 (encoded 30000): 30000 has patch 0, so the minor branch
requires 30000 - 100 = 29900 (version 2.99) to be known, and it is not. -/
theorem C2_counterexample :
    is_semantically_correct_param 30000 [20000, 20100] = false := by
  decide

/-- Claim C2 as amended: a version with patch component 0 (minor increments
and major bumps alike) is accepted iff it is the first version of the corpus
or its immediately preceding minor version (encoded value minus 100) is in
the known set; a version with a nonzero patch component is accepted iff it
is the first version or its immediately preceding patch version (encoded
value minus 1) is known.  Only the first version of the corpus is exempt;
there is no major-version exemption. -/
theorem C2_since_continuity_amended :
    ∀ (v : Int) (pvs : List Int), pvs ≠ [] →
      (is_semantically_correct_param v pvs = true ↔
        (v = pvs.headI
          ∨ (v % 100 = 0 ∧ (v - 100) ∈ pvs)
          ∨ (v % 100 ≠ 0 ∧ (v - 1) ∈ pvs))) := by
  intro v pvs _
  by_cases h : v = pvs.headI
  · simp [is_semantically_correct_param, h]
  · by_cases hm : v % 100 = 0
    · simp [is_semantically_correct_param, MINOR_VERSION_MULTIPLIER, h, hm]
    · simp [is_semantically_correct_param, MINOR_VERSION_MULTIPLIER,
        PATCH_VERSION_MULTIPLIER, h, hm, Int.emod_one]

/-- Witness for C2: version 2.1 (encoded 20100) with known set {2.0}. -/
theorem C2_since_continuity_amended_witness :
    is_semantically_correct_param 20100 [20000] = true ↔
      ((20100 : Int) = ([20000] : List Int).headI
        ∨ ((20100 : Int) % 100 = 0 ∧ ((20100 : Int) - 100) ∈ ([20000] : List Int))
        ∨ ((20100 : Int) % 100 ≠ 0 ∧ ((20100 : Int) - 1) ∈ ([20000] : List Int))) :=
  C2_since_continuity_amended 20100 [20000] (by decide)

/-- Helper for C7: the ordered flag computed by the parameter loop is exactly
non-decreasingness of the chain of encoded since values, seeded with the
running accumulator. -/
theorem is_parameters_ordered_loop_fst (pvs : List Int) (name : String) :
    ∀ (ps : List Param) (v : Int),
      (is_parameters_ordered_loop pvs name v ps).1 = true ↔
        List.Chain' (fun x y => x ≤ y)
          (v :: ps.map fun p => get_version_as_number p.since) := by
  intro ps
  induction ps with
  | nil =>
    intro v
    simp [is_parameters_ordered_loop]
  | cons p ps ih =>
    intro v
    simp only [is_parameters_ordered_loop, List.map_cons, List.chain'_cons,
      Bool.and_eq_true, decide_eq_true_eq]
    rw [ih]

/-- Helper for C7: the loop emits an ordering diagnostic exactly when the
ordered flag it returns is false. -/
theorem is_parameters_ordered_loop_diag (pvs : List Int) (name : String) :
    ∀ (ps : List Param) (v : Int),
      (is_parameters_ordered_loop pvs name v ps).2.2.any isOrderingDiag
        = !(is_parameters_ordered_loop pvs name v ps).1 := by
  intro ps
  induction ps with
  | nil =>
    intro v
    simp [is_parameters_ordered_loop]
  | cons p ps ih =>
    intro v
    simp only [is_parameters_ordered_loop, List.any_append]
    rw [ih]
    cases hs : is_semantically_correct_param (get_version_as_number p.since) pvs <;>
      cases ho : decide (v ≤ get_version_as_number p.since) <;>
        simp [hs, ho, isOrderingDiag]

/-- Claim C7: for any parameter list (request, response or event), the
validator reports an ordering violation iff the chain formed by the owner's
encoded "since" followed by the parameters' encoded "since" values is not
non-decreasing (this covers both "parameters non-decreasing" and "owner not
exceeding the first parameter"); on the since sequence [1.0, 1.1, 1.0] with
owner since 1.0 and known versions {1.0, 1.1} (encoded 10000 and 10100), the
only diagnostic is the ordering one naming the third parameter "c". -/
theorem C7_parameter_ordering :
    (∀ since name params pvs,
      (is_parameters_ordered_and_semantically_correct since name params pvs).2.any
          isOrderingDiag = true ↔
        ¬ List.Chain' (fun x y => x ≤ y)
          (get_version_as_number since :: params.map fun p => get_version_as_number p.since))
    ∧ is_parameters_ordered_and_semantically_correct [1, 0] "M#request"
        [⟨"a", "int", [1, 0]⟩, ⟨"b", "int", [1, 1]⟩, ⟨"c", "int", [1, 0]⟩]
        [10000, 10100]
      = (false, [Diag.paramOrdering "c" "M#request"]) := by
  constructor
  · intro since name params pvs
    simp only [is_parameters_ordered_and_semantically_correct, List.any_append]
    rw [is_parameters_ordered_loop_diag]
    rw [← is_parameters_ordered_loop_fst pvs name params (get_version_as_number since)]
    cases hh : is_semantically_correct_param (get_version_as_number since) pvs <;>
      cases hl : (is_parameters_ordered_loop pvs name
          (get_version_as_number since) params).1 <;>
        simp [hh, hl, isOrderingDiag]
  · decide

/-- Witness for C7 at a concrete parameter list with a decreasing tail. -/
theorem C7_parameter_ordering_witness :
    (is_parameters_ordered_and_semantically_correct [1, 0] "M#request"
        [⟨"a", "int", [1, 0]⟩, ⟨"b", "int", [1, 1]⟩, ⟨"c", "int", [1, 0]⟩]
        [10000, 10100]).2.any isOrderingDiag = true ↔
      ¬ List.Chain' (fun x y => x ≤ y)
        (get_version_as_number [1, 0] ::
          ([⟨"a", "int", [1, 0]⟩, ⟨"b", "int", [1, 1]⟩,
            (⟨"c", "int", [1, 0]⟩ : Param)].map fun p => get_version_as_number p.since)) :=
  C7_parameter_ordering.1 [1, 0] "M#request"
    [⟨"a", "int", [1, 0]⟩, ⟨"b", "int", [1, 1]⟩, ⟨"c", "int", [1, 0]⟩] [10000, 10100]

/-- Helper for C3: once one service fails the structural schema check, the
validator's result does not depend on anything after that service — Python's
`return False` on line 371 abandons the loop. -/
theorem validate_services_aux_abort (f : Service → Bool) (nic : Bool) (pvs : List Int) :
    ∀ (pre : List Service) (s : Service) (post post2 : List Service) (i : Nat) (valid : Bool),
      f s = false →
      validate_services_aux f nic pvs i valid (pre ++ s :: post) =
        validate_services_aux f nic pvs i valid (pre ++ s :: post2) := by
  intro pre
  induction pre with
  | nil =>
    intro s post post2 i valid hf
    simp [validate_services_aux, hf]
  | cons q pre ih =>
    intro s post post2 i valid hf
    cases hq : f q <;> simp only [List.cons_append, validate_services_aux, hq,
      Bool.false_eq_true, if_false, if_true, List.append_eq]
    rw [ih s post post2 (i + 1) _ hf]

/-- Helper for C3: a run that reaches a structurally invalid service returns
the aggregate boolean false. -/
theorem validate_services_aux_abort_false (f : Service → Bool) (nic : Bool) (pvs : List Int) :
    ∀ (pre : List Service) (s : Service) (post : List Service) (i : Nat) (valid : Bool),
      f s = false →
      (validate_services_aux f nic pvs i valid (pre ++ s :: post)).1 = false := by
  intro pre
  induction pre with
  | nil =>
    intro s post i valid hf
    simp [validate_services_aux, hf]
  | cons q pre ih =>
    intro s post i valid hf
    cases hq : f q <;> simp only [List.cons_append, validate_services_aux, hq,
      Bool.false_eq_true, if_false, if_true, List.append_eq]
    exact ih s post (i + 1) _ hf

/-- Helper for C3: while every service passes the schema check, the loop
accumulates every semantic diagnostic and ANDs every per-service semantic
verdict into the running `valid` flag. -/
theorem validate_services_aux_all_pass (f : Service → Bool) (nic : Bool) (pvs : List Int) :
    ∀ (svcs : List Service) (i : Nat) (valid : Bool),
      (∀ s ∈ svcs, f s = true) →
      validate_services_aux f nic pvs i valid svcs =
        (valid && ((svcs.enumFrom i).all fun p => (validate_service_checked nic p.1 p.2 pvs).1),
         ((svcs.enumFrom i).map fun p => (validate_service_checked nic p.1 p.2 pvs).2).flatten) := by
  intro svcs
  induction svcs with
  | nil =>
    intro i valid _
    simp [validate_services_aux, List.enumFrom]
  | cons s rest ih =>
    intro i valid hall
    have hs : f s = true := hall s (List.mem_cons_self s rest)
    simp only [validate_services_aux, hs, if_true, List.enumFrom, List.all_cons,
      List.map_cons, List.flatten_cons]
    rw [ih (i + 1) _ (fun t ht => hall t (List.mem_cons_of_mem s ht))]
    simp [Bool.and_assoc]

/-- Counterexample to claim C3: with a two-service corpus in which the first
service "A" fails the structural schema check and the second service "B"
carries a semantic violation (declared id 5 at position 1), the validator
returns after the schema failure with only the schema diagnostic — the
violation in "B" is never reported, although the same corpus with a
schema-valid first service does report it.  So a structural violation is
fatal to checking the remaining documents. -/
theorem C3_counterexample :
    validate_services (fun s => s.name != "A")
        [⟨"A", 0, []⟩, ⟨"B", 5, []⟩] false []
      = (false, [Diag.schema "A"])
    ∧ Diag.serviceId "B" ∉ (validate_services (fun s => s.name != "A")
        [⟨"A", 0, []⟩, ⟨"B", 5, []⟩] false []).2
    ∧ Diag.serviceId "B" ∈ (validate_services (fun s => s.name != "A")
        [⟨"G", 0, []⟩, ⟨"B", 5, []⟩] false []).2 := by
  refine ⟨?_, ?_, ?_⟩ <;> decide

/-- Claim C3 as amended: semantic (id and "since") violations are accumulated
across the whole corpus into one aggregate boolean, but a structural schema
violation is fatal: the validator returns false at the first structurally
invalid document, skipping that document's semantic checks and every
remaining document.  Part one: the run's outcome is independent of everything
after a structurally invalid service, and the aggregate verdict is false.
Part two: while every document passes the schema check, every semantic
diagnostic in the corpus is accumulated and the aggregate boolean is the
conjunction of all per-service semantic verdicts. -/
theorem C3_validator_aggregation :
    (∀ (f : Service → Bool) (pre : List Service) (s : Service) (post : List Service)
        (nic : Bool) (pvs : List Int), f s = false →
      validate_services f (pre ++ s :: post) nic pvs =
          validate_services f (pre ++ [s]) nic pvs
        ∧ (validate_services f (pre ++ s :: post) nic pvs).1 = false)
    ∧ (∀ (f : Service → Bool) (svcs : List Service) (nic : Bool) (pvs : List Int),
        (∀ s ∈ svcs, f s = true) →
        validate_services f svcs nic pvs =
          (svcs.enum.all fun p => (validate_service_checked nic p.1 p.2 pvs).1,
           (svcs.enum.map fun p => (validate_service_checked nic p.1 p.2 pvs).2).flatten)) := by
  constructor
  · intro f pre s post nic pvs hf
    constructor
    · exact validate_services_aux_abort f nic pvs pre s post [] 0 true hf
    · exact validate_services_aux_abort_false f nic pvs pre s post 0 true hf
  · intro f svcs nic pvs hall
    have h := validate_services_aux_all_pass f nic pvs svcs 0 true hall
    simpa [validate_services, List.enum] using h

/-- Witness for C3 at a concrete corpus whose first document fails the
schema check. -/
theorem C3_validator_aggregation_witness :
    validate_services (fun s => s.name != "A")
        ([] ++ (⟨"A", 0, []⟩ : Service) :: [⟨"B", 5, []⟩]) false [] =
      validate_services (fun s => s.name != "A") ([] ++ [(⟨"A", 0, []⟩ : Service)]) false []
    ∧ (validate_services (fun s => s.name != "A")
        ([] ++ (⟨"A", 0, []⟩ : Service) :: [⟨"B", 5, []⟩]) false []).1 = false :=
  C3_validator_aggregation.1 (fun s => s.name != "A") [] ⟨"A", 0, []⟩ [⟨"B", 5, []⟩]
    false [] (by decide)

/-- Helper for C10: for an exempt service (ignore-set name, or the
no-id-check flag set) the guarded semantic block contributes a true verdict
and no diagnostics. -/
theorem validate_service_checked_exempt (nic : Bool) (i : Nat) (s : Service)
    (pvs : List Int) (h : nic = true ∨ s.name ∈ ID_VALIDATOR_IGNORE_SET) :
    validate_service_checked nic i s pvs = (true, []) := by
  rcases h with h | h <;> simp [validate_service_checked, h]

/-- Helper for C10: replacing an exempt service by any other service with the
same name and same schema verdict leaves the whole validation run
unchanged — its id, methods and "since" data are never examined. -/
theorem validate_services_aux_exempt_swap (f : Service → Bool) (nic : Bool)
    (pvs : List Int) :
    ∀ (pre : List Service) (s s2 : Service) (post : List Service) (i : Nat) (valid : Bool),
      (nic = true ∨ s.name ∈ ID_VALIDATOR_IGNORE_SET) →
      s2.name = s.name → f s2 = f s →
      validate_services_aux f nic pvs i valid (pre ++ s :: post) =
        validate_services_aux f nic pvs i valid (pre ++ s2 :: post) := by
  intro pre
  induction pre with
  | nil =>
    intro s s2 post i valid hex hname hsch
    have hex2 : nic = true ∨ s2.name ∈ ID_VALIDATOR_IGNORE_SET := by rw [hname]; exact hex
    cases hfs : f s <;>
      simp only [List.nil_append, validate_services_aux, hsch, hfs, Bool.false_eq_true,
        if_false, if_true, hname,
        validate_service_checked_exempt nic i s pvs hex,
        validate_service_checked_exempt nic i s2 pvs hex2]
  | cons q pre ih =>
    intro s s2 post i valid hex hname hsch
    cases hq : f q <;> simp only [List.cons_append, validate_services_aux, hq,
      Bool.false_eq_true, if_false, if_true, List.append_eq]
    rw [ih s s2 post (i + 1) _ hex hname hsch]

/-- Helper for C10: when every service of the corpus is exempt, the aggregate
verdict is exactly the conjunction of schema verdicts and every emitted
diagnostic is a schema diagnostic. -/
theorem validate_services_aux_exempt_all (f : Service → Bool) (nic : Bool)
    (pvs : List Int) :
    ∀ (svcs : List Service) (i : Nat) (valid : Bool),
      (∀ s ∈ svcs, nic = true ∨ s.name ∈ ID_VALIDATOR_IGNORE_SET) →
      (validate_services_aux f nic pvs i valid svcs).1 = (valid && svcs.all f)
        ∧ ∀ d ∈ (validate_services_aux f nic pvs i valid svcs).2,
            ∃ nm, d = Diag.schema nm := by
  intro svcs
  induction svcs with
  | nil =>
    intro i valid _
    simp [validate_services_aux]
  | cons s rest ih =>
    intro i valid hall
    have hex := hall s (List.mem_cons_self s rest)
    have hrest := fun t ht => hall t (List.mem_cons_of_mem s ht)
    cases hfs : f s
    · simp [validate_services_aux, hfs, List.all_cons]
    · simp only [validate_services_aux, hfs, if_true,
        validate_service_checked_exempt nic i s pvs hex, Bool.and_true, List.nil_append,
        List.all_cons, Bool.true_and]
      exact ih (i + 1) valid hrest

/-- Claim C10: a service named in the fixed exemption set {"Jet",
"Experimental"} — or any service when the no-id-check flag is set — has its
entire semantic block skipped: the validator's outcome is invariant under
replacing such a service by any service with the same name and schema
verdict (so its service id, method ids and every "since" check are never
performed), and a corpus of only exempt services can fail only structurally:
its verdict is the conjunction of schema verdicts and every diagnostic is a
schema diagnostic. -/
theorem C10_exempt_service_skips_semantic_block :
    (∀ (f : Service → Bool) (nic : Bool) (pvs : List Int) (pre post : List Service)
        (s s2 : Service),
      (nic = true ∨ s.name ∈ ID_VALIDATOR_IGNORE_SET) →
      s2.name = s.name → f s2 = f s →
      validate_services f (pre ++ s :: post) nic pvs =
        validate_services f (pre ++ s2 :: post) nic pvs)
    ∧ (∀ (f : Service → Bool) (svcs : List Service) (nic : Bool) (pvs : List Int),
        (∀ s ∈ svcs, nic = true ∨ s.name ∈ ID_VALIDATOR_IGNORE_SET) →
        (validate_services f svcs nic pvs).1 = svcs.all f
          ∧ ∀ d ∈ (validate_services f svcs nic pvs).2, ∃ nm, d = Diag.schema nm) := by
  constructor
  · intro f nic pvs pre post s s2 hex hname hsch
    exact validate_services_aux_exempt_swap f nic pvs pre s s2 post 0 true hex hname hsch
  · intro f svcs nic pvs hall
    have h := validate_services_aux_exempt_all f nic pvs svcs 0 true hall
    simpa [validate_services] using h

/-- Witness for C10: a lone "Jet" service with a wildly wrong service id and
method id passes validation (no semantic check runs) as long as its schema
verdict is positive. -/
theorem C10_exempt_service_skips_semantic_block_witness :
    (validate_services (fun _ => true)
        [⟨"Jet", 42, [⟨"m", 99, [9, 9], [], [], none⟩]⟩] false []).1 =
      ([⟨"Jet", 42, [⟨"m", 99, [9, 9], [], [], none⟩]⟩] : List Service).all (fun _ => true)
    ∧ ∀ d ∈ (validate_services (fun _ => true)
        [⟨"Jet", 42, [⟨"m", 99, [9, 9], [], [], none⟩]⟩] false []).2,
        ∃ nm, d = Diag.schema nm :=
  C10_exempt_service_skips_semantic_block.2 (fun _ => true)
    [⟨"Jet", 42, [⟨"m", 99, [9, 9], [], [], none⟩]⟩] false []
    (by intro s hs; right; rw [List.mem_singleton] at hs; rw [hs]; decide)

/-- Helper for C1: a `%02x` chunk of a value below 256 is exactly two hex
digits wide. -/
theorem hexDigitCountAux_small (fuel m : Nat) (hm : m < 16) :
    hexDigitCountAux fuel m = 1 := by
  cases fuel <;> simp [hexDigitCountAux, hm]

/-- Helper for C1: `hexLen` of a byte value is 2. -/
theorem hexLen_eq_two {n : Nat} (h : n < 256) : hexLen n = 2 := by
  by_cases h16 : n < 16
  · rw [hexLen, hexDigitCount, hexDigitCountAux_small n n h16]
    decide
  · obtain ⟨k, rfl⟩ : ∃ k, n = k + 1 := ⟨n - 1, by omega⟩
    rw [hexLen, hexDigitCount]
    rw [hexDigitCountAux, if_neg h16,
      hexDigitCountAux_small k ((k + 1) / 16) (by omega)]
    decide

/-- Claim C1: the id-enrichment of `generate_codecs` gives the request the
3-byte id (serviceId, methodId, 0), the response (serviceId, methodId, 1)
and the i-th declared event (serviceId, methodId, i+2), i.e. each assigned
integer equals serviceId*65536 + methodId*256 + kind whenever methodId and
kind fit in one byte; in particular service id 3, method id 5 with two
events yields 0x030500, 0x030501, 0x030502, 0x030503. -/
theorem C1_message_id_assignment :
    (∀ (s m : Nat) (evs : Option (List Event)), m < 256 →
      (assignMessageIds s m evs).requestId = s * 65536 + m * 256
      ∧ (assignMessageIds s m evs).responseId = s * 65536 + m * 256 + 1
      ∧ ∀ (evl : List Event) (i : Nat), evs = some evl → i < evl.length → i + 2 < 256 →
          (assignMessageIds s m evs).eventIds[i]? = some (s * 65536 + m * 256 + (i + 2)))
    ∧ assignMessageIds 3 5 (some [⟨"e0", [2, 0], []⟩, ⟨"e1", [2, 0], []⟩])
        = ⟨197888, 197889, [197890, 197891]⟩ := by
  constructor
  · intro s m evs hm
    have hm2 : hexLen m = 2 := hexLen_eq_two hm
    refine ⟨?_, ?_, ?_⟩
    · show assignedMessageId s m 0 = _
      rw [assignedMessageId, hm2, hexLen_eq_two (by omega : (0 : Nat) < 256)]
      norm_num
    · show assignedMessageId s m 1 = _
      rw [assignedMessageId, hm2, hexLen_eq_two (by omega : (1 : Nat) < 256)]
      norm_num
    · intro evl i hevs hi hib
      subst hevs
      show ((List.range evl.length).map fun i =>
        assignedMessageId s m (i + 2))[i]? = _
      rw [List.getElem?_map, List.getElem?_range hi]
      rw [Option.map_some']
      rw [assignedMessageId, hm2, hexLen_eq_two hib]
      norm_num
  · decide

/-- Witness for C1 at service id 3, method id 5. -/
theorem C1_message_id_assignment_witness :
    (assignMessageIds 3 5 none).requestId = 3 * 65536 + 5 * 256 :=
  (C1_message_id_assignment.1 3 5 none (by omega)).1

/-- Claim C6: the hash embedded at the `!codec_hash!` placeholder is the
hash of the normalized pre-substitution text — the text in which the
placeholder token (not the hash value itself) still stands — and that hash
is then substituted into that same text.  Formally: (i) the written artifact
depends on the hash function only through its value on the normalized
content, so the embedded hash value is never part of the hashed bytes;
(ii,iii,iv) on a concrete artifact the written text embeds exactly the hash
of the normalized content, and replacing the embedded hash back by the
placeholder token recovers the hashed text; (v,vi) for a `.cs` artifact the
hash is computed over the *normalized* text. -/
theorem C6_hash_of_presubstitution_text :
    (∀ (h1 h2 : String → String) (file content : String),
      h1 (normalized_content file content) = h2 (normalized_content file content) →
      save_file h1 file content = save_file h2 file content)
    ∧ save_file lenHash "X.java" "a=!codec_hash!;" = "a=H15H;"
    ∧ lenHash (normalized_content "X.java" "a=!codec_hash!;") = "H15H"
    ∧ pyReplace "a=H15H;" "H15H" "!codec_hash!" = normalized_content "X.java" "a=!codec_hash!;"
    ∧ save_file lenHash "F.cs" "x =!codec_hash!  \r\n\r\n" = "x =H16H\n"
    ∧ lenHash (normalized_content "F.cs" "x =!codec_hash!  \r\n\r\n") = "H16H" := by
  constructor
  · intro h1 h2 file content heq
    simp only [save_file]
    rw [heq]
  · refine ⟨?_, ?_, ?_, ?_, ?_⟩ <;> decide

/-- Witness for C6: two hash functions agreeing on the normalized content
produce the same artifact. -/
theorem C6_hash_of_presubstitution_text_witness :
    save_file lenHash "F.cs" "x =!codec_hash!  \r\n\r\n" =
      save_file (fun _ => "H16H") "F.cs" "x =!codec_hash!  \r\n\r\n" :=
  C6_hash_of_presubstitution_text.1 lenHash (fun _ => "H16H") "F.cs"
    "x =!codec_hash!  \r\n\r\n" (by decide)

/-- Claim C9: per-artifact error isolation of the emission loop.
(i) While the renderer raises no foreign failure, the batch completes: an
artifact is written iff its render succeeded, and each artifact whose render
raised the "unsupported type mapping" signal is skipped with a diagnostic
naming exactly that artifact, in batch order, while every other artifact of
the batch is still processed.  (ii) When the renderer raises any other
failure on one artifact, the loop stops there: the outcome is independent of
everything after the failing artifact, and (iii) the failure propagates out
of the loop unswallowed. -/
theorem C9_unsupported_mapping_skips_one_artifact :
    (∀ (α : Type) (render : α → RenderOutcome) (fileName : α → String) (batch : List α),
      (∀ a ∈ batch, (render a).isFailure = false) →
      generate_codecs_batch render fileName batch =
        ⟨batch.filterMap fun a =>
            match render a with
            | RenderOutcome.ok c => some (fileName a, c)
            | _ => none,
          batch.filterMap fun a =>
            match render a with
            | RenderOutcome.notImplementedError _ => some (fileName a)
            | _ => none,
          none⟩)
    ∧ (∀ (α : Type) (render : α → RenderOutcome) (fileName : α → String)
        (pre : List α) (a : α) (post post2 : List α) (e : String),
        render a = RenderOutcome.failure e →
        generate_codecs_batch render fileName (pre ++ a :: post) =
          generate_codecs_batch render fileName (pre ++ a :: post2))
    ∧ (∀ (α : Type) (render : α → RenderOutcome) (fileName : α → String)
        (pre : List α) (a : α) (post : List α) (e : String),
        (∀ x ∈ pre, (render x).isFailure = false) →
        render a = RenderOutcome.failure e →
        (generate_codecs_batch render fileName (pre ++ a :: post)).aborted = some e) := by
  refine ⟨?_, ?_, ?_⟩
  · intro α render fileName batch hall
    induction batch with
    | nil => simp [generate_codecs_batch]
    | cons a rest ih =>
      have ha := hall a (List.mem_cons_self a rest)
      have hrest := ih fun x hx => hall x (List.mem_cons_of_mem a hx)
      cases hr : render a
      · simp [generate_codecs_batch, hr, hrest, List.filterMap_cons]
      · simp [generate_codecs_batch, hr, hrest, List.filterMap_cons]
      · rw [hr] at ha
        simp [RenderOutcome.isFailure] at ha
  · intro α render fileName pre a post post2 e hfail
    induction pre with
    | nil => simp [generate_codecs_batch, hfail]
    | cons q pre ih =>
      cases hq : render q <;>
        simp only [List.cons_append, generate_codecs_batch, hq, List.append_eq] <;>
          rw [ih]
  · intro α render fileName pre a post e hclean hfail
    induction pre with
    | nil => simp [generate_codecs_batch, hfail]
    | cons q pre ih =>
      have hq' := hclean q (List.mem_cons_self q pre)
      have ih' := ih fun x hx => hclean x (List.mem_cons_of_mem q hx)
      cases hq : render q
      · simp only [List.cons_append, generate_codecs_batch, hq, List.append_eq]
        exact ih'
      · simp only [List.cons_append, generate_codecs_batch, hq, List.append_eq]
        exact ih'
      · rw [hq] at hq'
        simp [RenderOutcome.isFailure] at hq'

/-- Witness for C9: a three-artifact batch whose middle render raises the
unsupported-type-mapping signal writes the first and third artifacts and
skips exactly the middle one. -/
theorem C9_unsupported_mapping_skips_one_artifact_witness :
    generate_codecs_batch
        (fun n : Nat => if n = 1 then RenderOutcome.notImplementedError "missing"
          else RenderOutcome.ok "code")
        (fun n : Nat => Nat.repr n) [0, 1, 2] =
      ⟨([0, 1, 2].filterMap fun a =>
          match (if a = 1 then RenderOutcome.notImplementedError "missing"
            else RenderOutcome.ok "code") with
          | RenderOutcome.ok c => some (Nat.repr a, c)
          | _ => none),
        ([0, 1, 2].filterMap fun a =>
          match (if a = 1 then RenderOutcome.notImplementedError "missing"
            else RenderOutcome.ok "code") with
          | RenderOutcome.notImplementedError _ => some (Nat.repr a)
          | _ => none),
        none⟩ :=
  C9_unsupported_mapping_skips_one_artifact.1 Nat
    (fun n => if n = 1 then RenderOutcome.notImplementedError "missing"
      else RenderOutcome.ok "code")
    (fun n => Nat.repr n) [0, 1, 2] (by decide)

/-- Claim C4 (code evaluated at the failing input): on the cyclic
custom-type graph consisting of the single custom type "A" whose one
parameter has type "A", the classifier never produces a result, whatever
recursion depth it is allowed: nothing is added to either memo set before
the recursive call, so `type_contains_serialized_data("A")` re-enters
itself in an unchanged state.  (In Python the recursion runs until the
interpreter's recursion limit aborts the run; the claim's required
"terminates and returns a boolean" fails.) -/
theorem C4_cyclic_custom_type_diverges :
    ∀ fuel : Nat,
      type_contains_serialized_data [⟨"A", [2, 0], [⟨"p", "A", [2, 0]⟩]⟩]
        fuel "A" initMemo = none := by
  intro fuel
  induction fuel with
  | zero => rfl
  | succ n ih =>
    have hcl : classify [⟨"A", [2, 0], [⟨"p", "A", [2, 0]⟩]⟩] "A"
        = Shape.customLike [⟨"p", "A", [2, 0]⟩] := by decide
    simp only [type_contains_serialized_data, hcl]
    rw [if_neg (by decide), if_neg (by decide)]
    simp only [params_scan, ih]

/-- Helper for C5: the initial memo state is sound. -/
theorem sound_initMemo (ct : List CustomType) : Sound ct initMemo := by
  refine ⟨by simp [initMemo], ?_, ?_⟩
  · intro t ht
    simp only [initMemo, List.mem_singleton] at ht
    rw [ht]
    exact IsHit.data
  · intro t ht
    simp [initMemo] at ht

/-- Helper for C5: recording a correct hit keeps the memo sound. -/
theorem sound_addHit {ct : List CustomType} {σ : Memo} {t : String}
    (hσ : Sound ct σ) (ht : IsHit ct t) : Sound ct (addHit t σ) := by
  obtain ⟨hd, hh, hm⟩ := hσ
  refine ⟨List.mem_cons_of_mem t hd, ?_, hm⟩
  intro u hu
  rcases List.mem_cons.mp hu with h | h
  · rw [h]; exact ht
  · exact hh u h

/-- Helper for C5: recording a correct miss keeps the memo sound. -/
theorem sound_addMiss {ct : List CustomType} {σ : Memo} {t : String}
    (hσ : Sound ct σ) (ht : ¬ IsHit ct t) : Sound ct (addMiss t σ) := by
  obtain ⟨hd, hh, hm⟩ := hσ
  refine ⟨hd, hh, ?_⟩
  intro u hu
  rcases List.mem_cons.mp hu with h | h
  · rw [h]; exact ht
  · exact hm u h

/-- Helper for C5: inversion of the classification relation along the
source's dispatch. -/
theorem isHit_inversion {ct : List CustomType} {t : String} (h : IsHit ct t) :
    t = "Data"
    ∨ (∃ item, classify ct t = Shape.listLike item ∧ IsHit ct item)
    ∨ (∃ k v, classify ct t = Shape.mapLike k v ∧ (IsHit ct k ∨ IsHit ct v))
    ∨ (∃ ps, classify ct t = Shape.customLike ps ∧ ∃ p ∈ ps, IsHit ct p.type) := by
  cases h with
  | data => exact Or.inl rfl
  | list hcl hh => exact Or.inr (Or.inl ⟨_, hcl, hh⟩)
  | mapKey hcl hh => exact Or.inr (Or.inr (Or.inl ⟨_, _, hcl, Or.inl hh⟩))
  | mapVal hcl hh => exact Or.inr (Or.inr (Or.inl ⟨_, _, hcl, Or.inr hh⟩))
  | custom hne hcl hp hh => exact Or.inr (Or.inr (Or.inr ⟨_, hcl, _, hp, hh⟩))

/-- Helper for C5: the short-circuiting parameter scan is sound whenever the
underlying classifier is: on completion it returns true iff some scanned
parameter's type is a hit, and it preserves memo soundness. -/
theorem params_scan_sound {ct : List CustomType}
    {f : String → Memo → Option (Bool × Memo)}
    (hf : ∀ (ty : String) (σ : Memo) (b : Bool) (σ2 : Memo), Sound ct σ →
      f ty σ = some (b, σ2) → (b = true ↔ IsHit ct ty) ∧ Sound ct σ2) :
    ∀ (ps : List Param) (σ : Memo) (b : Bool) (σ2 : Memo), Sound ct σ →
      params_scan f ps σ = some (b, σ2) →
      (b = true ↔ ∃ p ∈ ps, IsHit ct p.type) ∧ Sound ct σ2 := by
  intro ps
  induction ps with
  | nil =>
    intro σ b σ2 hσ heq
    simp only [params_scan, Option.some.injEq, Prod.mk.injEq] at heq
    obtain ⟨hb, hσ2⟩ := heq
    subst hb; subst hσ2
    simp [hσ]
  | cons p ps ih =>
    intro σ b σ2 hσ heq
    cases hfp : f p.type σ with
    | none =>
      simp only [params_scan, hfp] at heq
      exact Option.noConfusion heq
    | some r =>
      obtain ⟨rb, rσ⟩ := r
      cases rb
      · simp only [params_scan, hfp] at heq
        have hstep := hf p.type σ false rσ hσ hfp
        have hnp : ¬ IsHit ct p.type := fun hh =>
          absurd (hstep.1.mpr hh) (by simp)
        have hrec := ih rσ b σ2 hstep.2 heq
        refine ⟨?_, hrec.2⟩
        rw [hrec.1, List.exists_mem_cons_iff]
        simp [hnp]
      · simp only [params_scan, hfp, Option.some.injEq, Prod.mk.injEq] at heq
        obtain ⟨hb, hσ2⟩ := heq
        subst hb; subst hσ2
        have hstep := hf p.type σ true rσ hσ hfp
        refine ⟨?_, hstep.2⟩
        simp only [true_iff]
        exact ⟨p, List.mem_cons_self p ps, hstep.1.mp rfl⟩

/-- Helper for C5 (the central invariant): from a sound memo state, whenever
the classifier completes it answers exactly the classification relation
`IsHit`, and it leaves the memo sound again. -/
theorem type_contains_serialized_data_sound (ct : List CustomType) :
    ∀ (fuel : Nat) (t : String) (σ : Memo) (b : Bool) (σ2 : Memo),
      Sound ct σ → type_contains_serialized_data ct fuel t σ = some (b, σ2) →
      (b = true ↔ IsHit ct t) ∧ Sound ct σ2 := by
  intro fuel
  induction fuel with
  | zero =>
    intro t σ b σ2 _ heq
    simp only [type_contains_serialized_data] at heq
    exact Option.noConfusion heq
  | succ n ih =>
    intro t σ b σ2 hσ heq
    by_cases hhit : t ∈ σ.hits
    · simp only [type_contains_serialized_data, hhit, if_true, Option.some.injEq,
        Prod.mk.injEq] at heq
      obtain ⟨hb, hσ2⟩ := heq
      subst hb; subst hσ2
      exact ⟨by simp [hσ.2.1 t hhit], hσ⟩
    · by_cases hmiss : t ∈ σ.misses
      · simp only [type_contains_serialized_data, hhit, hmiss, if_true, if_false,
          Option.some.injEq, Prod.mk.injEq] at heq
        obtain ⟨hb, hσ2⟩ := heq
        subst hb; subst hσ2
        exact ⟨by simp [hσ.2.2 t hmiss], hσ⟩
      · have hneData : t ≠ "Data" := by
          intro hEq
          exact hhit (by rw [hEq]; exact hσ.1)
        simp only [type_contains_serialized_data, hhit, hmiss, if_false] at heq
        cases hcl : classify ct t with
        | listLike item =>
          simp only [hcl] at heq
          cases hrec : type_contains_serialized_data ct n item σ with
          | none =>
            simp only [hrec] at heq
            exact Option.noConfusion heq
          | some r =>
            obtain ⟨rb, rσ⟩ := r
            simp only [hrec] at heq
            have hstep := ih item σ rb rσ hσ hrec
            cases rb
            · simp only [Option.some.injEq, Prod.mk.injEq] at heq
              obtain ⟨hb, hσ2⟩ := heq
              subst hb; subst hσ2
              have hni : ¬ IsHit ct item := fun hh => absurd (hstep.1.mpr hh) (by simp)
              have hnt : ¬ IsHit ct t := by
                intro hh
                rcases isHit_inversion hh with hd | ⟨it2, hcl2, hh2⟩
                  | ⟨k, v, hcl2, _⟩ | ⟨ps, hcl2, _⟩
                · exact hneData hd
                · rw [hcl] at hcl2
                  cases hcl2
                  exact hni hh2
                · rw [hcl] at hcl2
                  exact Shape.noConfusion hcl2
                · rw [hcl] at hcl2
                  exact Shape.noConfusion hcl2
              exact ⟨by simp [hnt], sound_addMiss hstep.2 hnt⟩
            · simp only [Option.some.injEq, Prod.mk.injEq] at heq
              obtain ⟨hb, hσ2⟩ := heq
              subst hb; subst hσ2
              have hht : IsHit ct t := IsHit.list hcl (hstep.1.mp rfl)
              exact ⟨by simp [hht], sound_addHit hstep.2 hht⟩
        | mapLike k v =>
          simp only [hcl] at heq
          cases hrk : type_contains_serialized_data ct n k σ with
          | none =>
            simp only [hrk] at heq
            exact Option.noConfusion heq
          | some rk =>
            obtain ⟨rkb, σk⟩ := rk
            simp only [hrk] at heq
            have hkstep := ih k σ rkb σk hσ hrk
            cases rkb
            · have hnk : ¬ IsHit ct k := fun hh => absurd (hkstep.1.mpr hh) (by simp)
              cases hrv : type_contains_serialized_data ct n v σk with
              | none =>
                simp only [hrv] at heq
                exact Option.noConfusion heq
              | some rv =>
                obtain ⟨rvb, σv⟩ := rv
                simp only [hrv] at heq
                have hvstep := ih v σk rvb σv hkstep.2 hrv
                cases rvb
                · simp only [Option.some.injEq, Prod.mk.injEq] at heq
                  obtain ⟨hb, hσ2⟩ := heq
                  subst hb; subst hσ2
                  have hnv : ¬ IsHit ct v := fun hh => absurd (hvstep.1.mpr hh) (by simp)
                  have hnt : ¬ IsHit ct t := by
                    intro hh
                    rcases isHit_inversion hh with hd | ⟨it2, hcl2, _⟩
                      | ⟨k2, v2, hcl2, hkv⟩ | ⟨ps, hcl2, _⟩
                    · exact hneData hd
                    · rw [hcl] at hcl2
                      exact Shape.noConfusion hcl2
                    · rw [hcl] at hcl2
                      cases hcl2
                      rcases hkv with hk | hv
                      · exact hnk hk
                      · exact hnv hv
                    · rw [hcl] at hcl2
                      exact Shape.noConfusion hcl2
                  exact ⟨by simp [hnt], sound_addMiss hvstep.2 hnt⟩
                · simp only [Option.some.injEq, Prod.mk.injEq] at heq
                  obtain ⟨hb, hσ2⟩ := heq
                  subst hb; subst hσ2
                  have hht : IsHit ct t := IsHit.mapVal hcl (hvstep.1.mp rfl)
                  exact ⟨by simp [hht], sound_addHit hvstep.2 hht⟩
            · simp only [Option.some.injEq, Prod.mk.injEq] at heq
              obtain ⟨hb, hσ2⟩ := heq
              subst hb; subst hσ2
              have hht : IsHit ct t := IsHit.mapKey hcl (hkstep.1.mp rfl)
              exact ⟨by simp [hht], sound_addHit hkstep.2 hht⟩
        | customLike ps =>
          simp only [hcl] at heq
          cases hscan : params_scan
              (fun ty σ0 => type_contains_serialized_data ct n ty σ0) ps σ with
          | none =>
            simp only [hscan] at heq
            exact Option.noConfusion heq
          | some rs =>
            obtain ⟨rb, rσ⟩ := rs
            simp only [hscan] at heq
            have hscan2 := params_scan_sound ih ps σ rb rσ hσ hscan
            cases rb
            · simp only [Option.some.injEq, Prod.mk.injEq] at heq
              obtain ⟨hb, hσ2⟩ := heq
              subst hb; subst hσ2
              have hnp : ¬ ∃ p ∈ ps, IsHit ct p.type := fun hh =>
                absurd (hscan2.1.mpr hh) (by simp)
              have hnt : ¬ IsHit ct t := by
                intro hh
                rcases isHit_inversion hh with hd | ⟨it2, hcl2, _⟩
                  | ⟨k2, v2, hcl2, _⟩ | ⟨ps2, hcl2, p, hp, hh2⟩
                · exact hneData hd
                · rw [hcl] at hcl2
                  exact Shape.noConfusion hcl2
                · rw [hcl] at hcl2
                  exact Shape.noConfusion hcl2
                · rw [hcl] at hcl2
                  cases hcl2
                  exact hnp ⟨p, hp, hh2⟩
              exact ⟨by simp [hnt], sound_addMiss hscan2.2 hnt⟩
            · simp only [Option.some.injEq, Prod.mk.injEq] at heq
              obtain ⟨hb, hσ2⟩ := heq
              subst hb; subst hσ2
              obtain ⟨p, hp, hh⟩ := hscan2.1.mp rfl
              have hht : IsHit ct t := IsHit.custom hneData hcl hp hh
              exact ⟨by simp [hht], sound_addHit hscan2.2 hht⟩
        | plain =>
          simp only [hcl, Option.some.injEq, Prod.mk.injEq] at heq
          obtain ⟨hb, hσ2⟩ := heq
          subst hb; subst hσ2
          have hnt : ¬ IsHit ct t := by
            intro hh
            rcases isHit_inversion hh with hd | ⟨it2, hcl2, _⟩
              | ⟨k2, v2, hcl2, _⟩ | ⟨ps2, hcl2, _⟩
            · exact hneData hd
            · rw [hcl] at hcl2
              exact Shape.noConfusion hcl2
            · rw [hcl] at hcl2
              exact Shape.noConfusion hcl2
            · rw [hcl] at hcl2
              exact Shape.noConfusion hcl2
          exact ⟨by simp [hnt], sound_addMiss hσ hnt⟩

/-- Helper for C5: the per-method loop of the table builder produces one
entry per method, named after the method, whose flag is true iff some
request parameter's type is a hit. -/
theorem methods_lookup_loop_sound (ct : List CustomType) (fuel : Nat) :
    ∀ (ms : List Method) (σ : Memo) (es : List (String × Bool)) (σ2 : Memo),
      Sound ct σ → methods_lookup_loop ct fuel ms σ = some (es, σ2) →
      List.Forall₂ (fun m nb => nb.1 = m.name ∧
        (nb.2 = true ↔ ∃ p ∈ m.request, IsHit ct p.type)) ms es ∧ Sound ct σ2 := by
  intro ms
  induction ms with
  | nil =>
    intro σ es σ2 hσ heq
    simp only [methods_lookup_loop, Option.some.injEq, Prod.mk.injEq] at heq
    obtain ⟨hes, hσ2⟩ := heq
    subst hes; subst hσ2
    exact ⟨List.Forall₂.nil, hσ⟩
  | cons m ms ih =>
    intro σ es σ2 hσ heq
    cases hscan : params_scan
        (fun ty σ0 => type_contains_serialized_data ct fuel ty σ0) m.request σ with
    | none =>
      simp only [methods_lookup_loop, hscan] at heq
      exact Option.noConfusion heq
    | some r =>
      obtain ⟨b, σ1⟩ := r
      have hstep := params_scan_sound (type_contains_serialized_data_sound ct fuel)
        m.request σ b σ1 hσ hscan
      cases hrest : methods_lookup_loop ct fuel ms σ1 with
      | none =>
        simp only [methods_lookup_loop, hscan, hrest] at heq
        exact Option.noConfusion heq
      | some rr =>
        obtain ⟨es1, σ3⟩ := rr
        simp only [methods_lookup_loop, hscan, hrest, Option.some.injEq,
          Prod.mk.injEq] at heq
        obtain ⟨hes, hσ2⟩ := heq
        subst hes; subst hσ2
        have hrec := ih σ1 es1 σ3 hstep.2 hrest
        exact ⟨List.Forall₂.cons ⟨rfl, hstep.1⟩ hrec.1, hrec.2⟩

/-- Helper for C5: the per-service loop of the table builder. -/
theorem services_lookup_loop_sound (ct : List CustomType) (fuel : Nat) :
    ∀ (ss : List Service) (σ : Memo) (tbl : List (String × List (String × Bool)))
      (σ2 : Memo),
      Sound ct σ → services_lookup_loop ct fuel ss σ = some (tbl, σ2) →
      List.Forall₂ (fun svc ste => ste.1 = svc.name ∧
        List.Forall₂ (fun m nb => nb.1 = m.name ∧
          (nb.2 = true ↔ ∃ p ∈ m.request, IsHit ct p.type)) svc.methods ste.2)
        ss tbl ∧ Sound ct σ2 := by
  intro ss
  induction ss with
  | nil =>
    intro σ tbl σ2 hσ heq
    simp only [services_lookup_loop, Option.some.injEq, Prod.mk.injEq] at heq
    obtain ⟨htbl, hσ2⟩ := heq
    subst htbl; subst hσ2
    exact ⟨List.Forall₂.nil, hσ⟩
  | cons s ss ih =>
    intro σ tbl σ2 hσ heq
    cases hms : methods_lookup_loop ct fuel s.methods σ with
    | none =>
      simp only [services_lookup_loop, hms] at heq
      exact Option.noConfusion heq
    | some r =>
      obtain ⟨es, σ1⟩ := r
      have hstep := methods_lookup_loop_sound ct fuel s.methods σ es σ1 hσ hms
      cases hrest : services_lookup_loop ct fuel ss σ1 with
      | none =>
        simp only [services_lookup_loop, hms, hrest] at heq
        exact Option.noConfusion heq
      | some rr =>
        obtain ⟨tbl1, σ3⟩ := rr
        simp only [services_lookup_loop, hms, hrest, Option.some.injEq,
          Prod.mk.injEq] at heq
        obtain ⟨htbl, hσ2⟩ := heq
        subst htbl; subst hσ2
        have hrec := ih σ1 tbl1 σ3 hstep.2 hrest
        exact ⟨List.Forall₂.cons ⟨rfl, hstep.1⟩ hrec.1, hrec.2⟩

/-- Claim C5: the data-flow classification follows exactly the five-case
rule.  (i) From any sound memo state (the initial one included), whenever
the classifier completes, it answers true exactly on the least relation
`IsHit` generated by: "Data" is a hit; a list/set-prefixed name is a hit iff
its item type is; a map/entry-list-prefixed name is a hit iff its key or its
value type is; a declared custom type is a hit iff one of its parameter
types is; anything else is a miss.  (ii) `List_Data` classifies as a hit and
(iii) `Map_String_String` as a miss.  (iv) Every completed lookup table maps
each method, by name and in order, to true iff some request parameter's type
is a hit. -/
theorem C5_classification_rule :
    (∀ (ct : List CustomType) (fuel : Nat) (t : String) (σ : Memo) (b : Bool)
        (σ2 : Memo),
      Sound ct σ → type_contains_serialized_data ct fuel t σ = some (b, σ2) →
      (b = true ↔ IsHit ct t))
    ∧ Option.map Prod.fst
        (type_contains_serialized_data [] 5 "List_Data" initMemo) = some true
    ∧ Option.map Prod.fst
        (type_contains_serialized_data [] 5 "Map_String_String" initMemo) = some false
    ∧ (∀ (services : List Service) (custom_services : List CustomService) (fuel : Nat)
        (tbl : List (String × List (String × Bool))),
        generate_data_containing_requests_lookup_table services custom_services fuel
          = some tbl →
        List.Forall₂ (fun svc ste => ste.1 = svc.name ∧
          List.Forall₂ (fun m nb => nb.1 = m.name ∧
            (nb.2 = true ↔ ∃ p ∈ m.request,
              IsHit (custom_types_of custom_services) p.type))
            svc.methods ste.2) services tbl) := by
  refine ⟨?_, ?_, ?_, ?_⟩
  · intro ct fuel t σ b σ2 hσ heq
    exact (type_contains_serialized_data_sound ct fuel t σ b σ2 hσ heq).1
  · decide
  · decide
  · intro services custom_services fuel tbl heq
    cases hrun : services_lookup_loop (custom_types_of custom_services) fuel
        services initMemo with
    | none =>
      simp only [generate_data_containing_requests_lookup_table, hrun] at heq
      exact Option.noConfusion heq
    | some r =>
      obtain ⟨tbl2, σf⟩ := r
      simp only [generate_data_containing_requests_lookup_table, hrun,
        Option.some.injEq] at heq
      subst heq
      exact (services_lookup_loop_sound (custom_types_of custom_services) fuel
        services initMemo tbl2 σf (sound_initMemo _) hrun).1

/-- Witness for C5: the classifier applied to "Data" itself from the initial
state, and the lookup table of a one-service corpus whose single method has
one request parameter of type "Data". -/
theorem C5_classification_rule_witness :
    (true = true ↔ IsHit [] "Data")
    ∧ List.Forall₂ (fun (svc : Service) (ste : String × List (String × Bool)) =>
        ste.1 = svc.name ∧
        List.Forall₂ (fun (m : Method) (nb : String × Bool) => nb.1 = m.name ∧
          (nb.2 = true ↔ ∃ p ∈ m.request, IsHit (custom_types_of []) p.type))
          svc.methods ste.2)
      [⟨"S", 0, [⟨"m", 1, [2, 0], [⟨"p", "Data", [2, 0]⟩], [], none⟩]⟩]
      [("S", [("m", true)])] :=
  ⟨C5_classification_rule.1 [] 1 "Data" initMemo true initMemo (sound_initMemo [])
      (by decide),
    C5_classification_rule.2.2.2
      [⟨"S", 0, [⟨"m", 1, [2, 0], [⟨"p", "Data", [2, 0]⟩], [], none⟩]⟩] [] 3
      [("S", [("m", true)])] (by decide)⟩
